import Mathlib

/-!
Verification development for the planora repository.

The two algorithmic cores are embedded shallowly:
  * the habit-streak engine (`src/convex/habits.ts`: `createHabit`,
    `updateHabit`, `deleteHabit`, `logHabitCompletion`, `updateStreak`),
  * the plan-to-calendar pipeline (`src/app/dashboard/plan/page.tsx`:
    `handleSubmit`'s schedule detection and `handleConfirmSchedule`;
    `src/convex/events.ts`: `createManyEvents`, `updateEvent`).

Modelling conventions:
  * Calendar dates (`YYYY-MM-DD` strings in the source) are modelled as
    integers counting days.  For strings of this fixed format the source's
    lexicographic comparison (`localeCompare`, `===`) coincides with
    chronological comparison of day numbers, and stepping `checkDate` back
    by one calendar day (`setDate(getDate() - 1)` followed by re-formatting)
    is subtraction by one.
  * Convex document ids are modelled as natural numbers handed out by a
    `nextId` counter in the database state.
  * A Convex mutation is a pure function from the database state to a new
    database state; a mutation that throws (e.g. `.unique()` finding more
    than one document, or argument validation failing) returns `none` and,
    since Convex mutations are transactional, leaves the state unchanged.
  * `undefined` optional arguments are modelled as `none`.
-/

namespace Planora

/-- Habit record (table `habits` of `src/convex/schema.ts`). -/
structure Habit where
  id : Nat
  userId : Nat
  name : String
  description : Option String := none
  frequency : String := "daily"
  customDays : Option (List Int) := none
  preferredTime : Option String := none
  durationMinutes : Int := 30
  currentStreak : Nat := 0
  bestStreak : Nat := 0
  isActive : Bool := true
  color : Option String := none
  createdAt : Nat := 0
deriving DecidableEq

/-- Habit completion log (table `habitLogs` of `src/convex/schema.ts`). -/
structure HabitLog where
  id : Nat
  habitId : Nat
  userId : Nat
  date : Int
  completed : Bool
  notes : Option String := none
  createdAt : Nat := 0
deriving DecidableEq

/-- Calendar event (table `calendarEvents` of `src/convex/schema.ts`). -/
structure CalendarEvent where
  id : Nat
  userId : Nat
  title : String
  description : Option String := none
  startTime : String
  endTime : String
  date : String
  category : String
  isRecurring : Bool
  recurringPattern : Option String := none
  createdBy : String
  completed : Bool := false
  createdAt : Nat := 0
deriving DecidableEq

/-- The habit-side portion of the document store. -/
structure HabitDB where
  habits : List Habit
  logs : List HabitLog
  nextId : Nat
deriving DecidableEq

/-- The event-side portion of the document store. -/
structure EventDB where
  events : List CalendarEvent
  nextId : Nat
deriving DecidableEq

/-! ### Habit mutations (`src/convex/habits.ts`) -/

/-- Arguments of the `createHabit` mutation. -/
structure CreateHabitArgs where
  userId : Nat
  name : String
  description : Option String := none
  frequency : String
  customDays : Option (List Int) := none
  preferredTime : Option String := none
  durationMinutes : Int
  color : Option String := none
deriving DecidableEq

/-- The document inserted by `createHabit`: the caller's arguments spread
together with `currentStreak: 0`, `bestStreak: 0`, `isActive: true` and a
creation timestamp. -/
def newHabit (a : CreateHabitArgs) (id now : Nat) : Habit :=
  { id := id
    userId := a.userId
    name := a.name
    description := a.description
    frequency := a.frequency
    customDays := a.customDays
    preferredTime := a.preferredTime
    durationMinutes := a.durationMinutes
    currentStreak := 0
    bestStreak := 0
    isActive := true
    color := a.color
    createdAt := now }

/-- `createHabit` mutation (habits.ts lines 55-88). -/
def createHabit (db : HabitDB) (a : CreateHabitArgs) (now : Nat) : HabitDB × Nat :=
  ({ db with habits := db.habits ++ [newHabit a db.nextId now], nextId := db.nextId + 1 },
   db.nextId)

/-- Optional arguments of the `updateHabit` mutation. -/
structure UpdateHabitArgs where
  name : Option String := none
  description : Option String := none
  frequency : Option String := none
  customDays : Option (List Int) := none
  preferredTime : Option String := none
  durationMinutes : Option Int := none
  color : Option String := none
  isActive : Option Bool := none
deriving DecidableEq

/-- A patch entry that survives the `value !== undefined` filter overwrites
the stored field; an omitted (undefined) entry leaves it alone. -/
def patchOptional {α : Type} (new old : Option α) : Option α :=
  match new with
  | some v => some v
  | none => old

/-- Effect of `ctx.db.patch(habitId, cleanUpdates)` in `updateHabit`
(habits.ts lines 116-127): only fields present among the arguments can
change, and only when the argument is not undefined. -/
def applyHabitPatch (a : UpdateHabitArgs) (h : Habit) : Habit :=
  { h with
    name := a.name.getD h.name
    description := patchOptional a.description h.description
    frequency := a.frequency.getD h.frequency
    customDays := patchOptional a.customDays h.customDays
    preferredTime := patchOptional a.preferredTime h.preferredTime
    durationMinutes := a.durationMinutes.getD h.durationMinutes
    color := patchOptional a.color h.color
    isActive := a.isActive.getD h.isActive }

/-- `updateHabit` mutation (habits.ts lines 93-128). -/
def updateHabit (db : HabitDB) (habitId : Nat) (a : UpdateHabitArgs) : HabitDB :=
  { db with habits := db.habits.map fun h => if h.id = habitId then applyHabitPatch a h else h }

/-- All logs of one habit, i.e. the `by_habit_and_date` index restricted to
the habit (habits.ts lines 139-142 and 208-211). -/
def habitLogsOf (db : HabitDB) (habitId : Nat) : List HabitLog :=
  db.logs.filter fun l => l.habitId = habitId

/-- Step one of `deleteHabit`: delete every log of the habit. -/
def deleteHabitLogs (db : HabitDB) (habitId : Nat) : HabitDB :=
  { db with logs := db.logs.filter fun l => ¬ (l.habitId = habitId) }

/-- Step two of `deleteHabit`: delete the habit document itself. -/
def deleteHabitRecord (db : HabitDB) (habitId : Nat) : HabitDB :=
  { db with habits := db.habits.filter fun h => ¬ (h.id = habitId) }

/-- `deleteHabit` mutation (habits.ts lines 133-151): logs first, then the
habit. -/
def deleteHabit (db : HabitDB) (habitId : Nat) : HabitDB :=
  deleteHabitRecord (deleteHabitLogs db habitId) habitId

/-! ### The streak engine (`updateStreak`, habits.ts lines 202-248) -/

/-- The loop of `updateStreak` (lines 223-239) over the logs sorted most
recent first: a log matching `checkDate` and completed extends the streak
and moves `checkDate` one day back; a matching uncompleted log or any
mismatch breaks the streak. -/
def streakWalk : List HabitLog → Int → Nat
  | [], _ => 0
  | log :: rest, checkDate =>
    if log.date = checkDate ∧ log.completed = true then
      1 + streakWalk rest (checkDate - 1)
    else if log.date = checkDate ∧ log.completed = false then
      0
    else
      0

/-- `logs.sort((a, b) => b.date.localeCompare(a.date))`: sort descending by
date (habits.ts line 214). -/
def sortLogsDesc (logs : List HabitLog) : List HabitLog :=
  logs.mergeSort fun a b => decide (b.date ≤ a.date)

/-- The current streak computed by `updateStreak` from the habit's logs and
today's date. -/
def computeCurrentStreak (logs : List HabitLog) (today : Int) : Nat :=
  streakWalk (sortLogsDesc logs) today

/-- The patch written at the end of `updateStreak` (lines 244-247). -/
def patchStreak (habitId : Nat) (c best : Nat) (h : Habit) : Habit :=
  if h.id = habitId then { h with currentStreak := c, bestStreak := best } else h

/-- `updateStreak` helper (habits.ts lines 202-248): a missing habit is a
silent no-op; otherwise recompute `currentStreak` from the sorted logs and
persist it together with `max(bestStreak, currentStreak)`. -/
def updateStreak (db : HabitDB) (habitId : Nat) (today : Int) : HabitDB :=
  match db.habits.find? fun h => h.id = habitId with
  | none => db
  | some habit =>
    let currentStreak := computeCurrentStreak (habitLogsOf db habitId) today
    let bestStreak := max habit.bestStreak currentStreak
    { db with habits := db.habits.map (patchStreak habitId currentStreak bestStreak) }

/-- The logs indexed by an exact `(habitId, date)` pair, as queried through
`by_habit_and_date` in `logHabitCompletion` (habits.ts lines 166-171). -/
def pairLogs (db : HabitDB) (habitId : Nat) (d : Int) : List HabitLog :=
  db.logs.filter fun l => l.habitId = habitId ∧ l.date = d

/-- `.unique()`: `some none` when no log exists, `some (some l)` for exactly
one, and `none` (a thrown error) when several match. -/
def uniquePairLog (db : HabitDB) (habitId : Nat) (d : Int) : Option (Option HabitLog) :=
  match pairLogs db habitId d with
  | [] => some none
  | [l] => some (some l)
  | _ => none

/-- `logHabitCompletion` mutation (habits.ts lines 156-196): upsert the log
for `(habitId, date)` — patching `completed`/`notes` of an existing log,
otherwise inserting a fresh one — then run `updateStreak`. -/
def logHabitCompletion (db : HabitDB) (habitId userId : Nat) (d : Int)
    (completed : Bool) (notes : Option String) (now : Nat) (today : Int) :
    Option HabitDB :=
  match uniquePairLog db habitId d with
  | none => none
  | some (some existing) =>
    some (updateStreak
      { db with logs := db.logs.map fun l =>
          if l.id = existing.id then { l with completed := completed, notes := notes } else l }
      habitId today)
  | some none =>
    some (updateStreak
      { db with
        logs := db.logs ++
          [{ id := db.nextId, habitId := habitId, userId := userId, date := d,
             completed := completed, notes := notes, createdAt := now }],
        nextId := db.nextId + 1 }
      habitId today)

/-! ### Specification-side streak definition (for the refinement claim C1)

`specStreak` is written from the specification's words, not from the code:
"`currentStreak` equals the length of the maximal unbroken run of
`completed=true` logs ending at today, with unbroken requiring exactly one
log per calendar day and no gap": walk back from today one calendar day at
a time while a completed log for that exact day exists.  The fuel
`logs.length` is an upper bound on any such run, since distinct days of the
run need distinct logs. -/

/-- Does some log of the set cover day `d` with `completed = true`? -/
def hasCompletedLog (logs : List HabitLog) (d : Int) : Bool :=
  logs.any fun l => decide (l.date = d) && l.completed

/-- Fuelled walk backwards from day `d` counting consecutively covered
completed days. -/
def specStreakAux (logs : List HabitLog) : Nat → Int → Nat
  | 0, _ => 0
  | f + 1, d => if hasCompletedLog logs d then 1 + specStreakAux logs f (d - 1) else 0

/-- The specification's streak value: length of the maximal unbroken
completed run ending at `today`. -/
def specStreak (logs : List HabitLog) (today : Int) : Nat :=
  specStreakAux logs logs.length today

/-! ### Event mutations (`src/convex/events.ts`) -/

/-- One element of the `events` array argument of `createManyEvents`
(events.ts lines 118-135). -/
structure EventArg where
  title : String
  description : Option String := none
  startTime : String
  endTime : String
  date : String
  category : String
  isRecurring : Bool
  createdBy : String
deriving DecidableEq

/-- The `category` argument validator
`v.union(v.literal("work"), ..., v.literal("other"))`. -/
def validCategory (s : String) : Bool :=
  s = "work" || s = "meal" || s = "sleep" || s = "habit" ||
    s = "planning" || s = "personal" || s = "other"

/-- The `createdBy` argument validator `v.union(v.literal("ai"), v.literal("user"))`. -/
def validCreatedBy (s : String) : Bool :=
  s = "ai" || s = "user"

/-- Convex validates each element of the `events` argument against the
declared validators before the handler runs; a failing element makes the
whole mutation throw. -/
def validEventArg (a : EventArg) : Bool :=
  validCategory a.category && validCreatedBy a.createdBy

/-- The document inserted for one element of the batch: the element spread
together with the caller's `userId`, `completed: false` and a creation
timestamp (events.ts lines 141-146). -/
def eventOfArg (id userId now : Nat) (a : EventArg) : CalendarEvent :=
  { id := id
    userId := userId
    title := a.title
    description := a.description
    startTime := a.startTime
    endTime := a.endTime
    date := a.date
    category := a.category
    isRecurring := a.isRecurring
    recurringPattern := none
    createdBy := a.createdBy
    completed := false
    createdAt := now }

/-- Sequential insertion of the batch (the mapped `ctx.db.insert` calls of
events.ts lines 139-148), collecting the new ids. -/
def insertAll (db : EventDB) (userId now : Nat) : List EventArg → EventDB × List Nat
  | [] => (db, [])
  | a :: rest =>
    let db1 : EventDB :=
      { events := db.events ++ [eventOfArg db.nextId userId now a], nextId := db.nextId + 1 }
    let r := insertAll db1 userId now rest
    (r.1, db.nextId :: r.2)

/-- `createManyEvents` mutation (events.ts lines 115-152): argument
validation happens before the handler; a transaction that throws commits
nothing. -/
def createManyEvents (db : EventDB) (userId : Nat) (args : List EventArg) (now : Nat) :
    Option (EventDB × List Nat) :=
  if args.all validEventArg then some (insertAll db userId now args) else none

/-- Closed form of the documents appended by a successful batch, starting
at id `startId`. -/
def mkEvents (startId userId now : Nat) : List EventArg → List CalendarEvent
  | [] => []
  | a :: rest => eventOfArg startId userId now a :: mkEvents (startId + 1) userId now rest

/-- Optional arguments of the `updateEvent` mutation (events.ts lines 157-174). -/
structure UpdateEventArgs where
  title : Option String := none
  description : Option String := none
  startTime : Option String := none
  endTime : Option String := none
  category : Option String := none
  completed : Option Bool := none
deriving DecidableEq

/-- Effect of `ctx.db.patch(eventId, cleanUpdates)` in `updateEvent`: only
the six optional argument fields can change, and only when not undefined. -/
def applyEventPatch (a : UpdateEventArgs) (e : CalendarEvent) : CalendarEvent :=
  { e with
    title := a.title.getD e.title
    description := patchOptional a.description e.description
    startTime := a.startTime.getD e.startTime
    endTime := a.endTime.getD e.endTime
    category := a.category.getD e.category
    completed := a.completed.getD e.completed }

/-- `updateEvent` mutation (events.ts lines 157-188). -/
def updateEvent (db : EventDB) (eventId : Nat) (a : UpdateEventArgs) : EventDB :=
  { db with events := db.events.map fun e => if e.id = eventId then applyEventPatch a e else e }

/-! ### Plan-to-calendar pipeline (`src/app/dashboard/plan/page.tsx`) -/

/-- Chat message. -/
structure Message where
  role : String
  content : String
deriving DecidableEq

/-- A proposed event of the parsed schedule (the `ParsedEvent` interface).
`category` is an `Option` because the parsed JSON need not carry one — the
confirm handler defaults a missing or empty category via
`event.category || 'other'`. -/
structure ParsedEvent where
  title : String
  startTime : String
  endTime : String
  category : Option String := none
  description : Option String := none
deriving DecidableEq

/-- Client-side pipeline state of the plan page: the transcript, the parsed
schedule proposal and the confirmation flag. -/
structure PlanState where
  messages : List Message
  parsedSchedule : Option (List ParsedEvent) := none
  scheduleConfirmed : Bool := false
deriving DecidableEq

/-- Minimal JSON value model for the parsed fenced block. -/
inductive Json where
  | null
  | bool (b : Bool)
  | num (n : Int)
  | str (s : String)
  | arr (elems : List Json)
  | obj (fields : List (String × Json))

/-- Field lookup on a JSON object (`parsed.events`); anything else has no
fields. -/
def jsonLookup (v : Json) (key : String) : Option Json :=
  match v with
  | Json.obj fields => (fields.find? fun f => f.1 = key).map fun f => f.2
  | _ => none

/-- The guard `parsed.events && Array.isArray(parsed.events)` (page.tsx
line 211): the parse result must have a top-level `events` array (arrays,
including the empty one, are truthy in JavaScript). -/
def getEvents (v : Json) : Option (List Json) :=
  match jsonLookup v "events" with
  | some (Json.arr elems) => some elems
  | _ => none

/-- JavaScript-style whitespace test used by the fence regex `\s`. -/
def isWhitespaceChar (c : Char) : Bool :=
  c = ' ' || c = '\n' || c = '\t' || c = '\r'

/-- Trim leading and trailing whitespace, matching the `\s*(...)\s*`
surroundings of the capture group. -/
def trimChars (s : List Char) : List Char :=
  (((s.dropWhile isWhitespaceChar).reverse).dropWhile isWhitespaceChar).reverse

/-- Split a character list at the first occurrence of `pat`: the part
before it and the part after it, or `none` when `pat` does not occur. -/
def splitFirst (pat : List Char) : List Char → Option (List Char × List Char)
  | [] => if pat.isEmpty then some ([], []) else none
  | c :: rest =>
    if pat.isPrefixOf (c :: rest) then some ([], (c :: rest).drop pat.length)
    else
      match splitFirst pat rest with
      | some (pre, post) => some (c :: pre, post)
      | none => none

/-- The schedule-block regex of page.tsx line 207,
`/```json\s*([\s\S]*?)\s*```/`: the (trimmed) text between the first
```` ```json ```` marker and the next ```` ``` ```` fence, if both exist. -/
def extractJsonBlock (reply : String) : Option String :=
  match splitFirst "```json".toList reply.toList with
  | none => none
  | some r =>
    match splitFirst "```".toList r.2 with
    | none => none
    | some r2 => some (String.mk (trimChars r2.1))

/-- Raw JSON event object to the `ParsedEvent` view the page works with
(the TypeScript cast performs no conversion; string fields are taken
verbatim and anything else is left to the downstream defaulting). -/
def decodeParsedEvent (v : Json) : ParsedEvent :=
  { title := match jsonLookup v "title" with | some (Json.str s) => s | _ => ""
    startTime := match jsonLookup v "startTime" with | some (Json.str s) => s | _ => ""
    endTime := match jsonLookup v "endTime" with | some (Json.str s) => s | _ => ""
    category := match jsonLookup v "category" with | some (Json.str s) => some s | _ => none
    description := match jsonLookup v "description" with | some (Json.str s) => some s | _ => none }

/-- Schedule detection after a reply finishes streaming (page.tsx lines
206-218).  `parseJson` stands for the host `JSON.parse`, returning `none`
when it throws.  The result is the proposal to store, or `none` when there
is no fenced block, the block fails to parse, or the parse result has no
top-level `events` array. -/
def detectSchedule (parseJson : String → Option Json) (reply : String) :
    Option (List ParsedEvent) :=
  match extractJsonBlock reply with
  | none => none
  | some block =>
    match parseJson block with
    | none => none
    | some v =>
      match getEvents v with
      | some elems => some (elems.map decodeParsedEvent)
      | none => none

/-- Tail of `handleSubmit` (page.tsx lines 188-218) after the stream has
delivered the full `assistantMessage`: the transcript becomes the user's
messages followed by the complete assistant reply, `parsedSchedule` is
replaced only when detection succeeds, and the event store is untouched —
`handleSubmit` performs no event mutation. -/
def handleSubmitFinish (parseJson : String → Option Json) (st : PlanState)
    (newMessages : List Message) (assistantMessage : String) (db : EventDB) :
    PlanState × EventDB :=
  let st1 : PlanState := { st with messages := newMessages ++ [⟨"assistant", assistantMessage⟩] }
  match detectSchedule parseJson assistantMessage with
  | some evs => ({ st1 with parsedSchedule := some evs }, db)
  | none => (st1, db)

/-- Expansion of one proposed event in `handleConfirmSchedule` (page.tsx
lines 242-251): fixed target date, timestamps
`` `${tomorrowDate}T${event.startTime}:00` ``, category defaulted through
`event.category || 'other'`, never recurring, provenance `ai`. -/
def toEventArg (tomorrowDate : String) (e : ParsedEvent) : EventArg :=
  { title := e.title
    description := e.description
    startTime := tomorrowDate ++ "T" ++ e.startTime ++ ":00"
    endTime := tomorrowDate ++ "T" ++ e.endTime ++ ":00"
    date := tomorrowDate
    category := match e.category with
      | none => "other"
      | some s => if s = "" then "other" else s
    isRecurring := false
    createdBy := "ai" }

/-- The success message appended after saving (page.tsx lines 262-268). -/
def confirmationMessage (tomorrowFormatted : String) : String :=
  "✅ **Your schedule for " ++ tomorrowFormatted ++
    " is saved!**\n\nYou can view it in your calendar. Have a productive day tomorrow! 🚀"

/-- The inline error message appended when saving fails (page.tsx lines
272-278). -/
def apologyMessage : String :=
  "Sorry, I had trouble saving your schedule. Please try again."

/-- `handleConfirmSchedule` (page.tsx lines 235-282): bail out without a
proposal or user id; otherwise expand the proposal, submit the batch, and
either mark the schedule confirmed with a success message or append the
apology leaving the proposal and the confirmation flag untouched. -/
def handleConfirmSchedule (st : PlanState) (db : EventDB) (convexUserId : Option Nat)
    (tomorrowDate tomorrowFormatted : String) (now : Nat) : PlanState × EventDB :=
  match st.parsedSchedule, convexUserId with
  | some ps, some userId =>
    match createManyEvents db userId (ps.map (toEventArg tomorrowDate)) now with
    | some r =>
      ({ st with
          scheduleConfirmed := true
          messages := st.messages ++ [⟨"assistant", confirmationMessage tomorrowFormatted⟩] },
       r.1)
    | none =>
      ({ st with messages := st.messages ++ [⟨"assistant", apologyMessage⟩] }, db)
  | _, _ => (st, db)

/-! ### Observers and concrete instances used by the theorems below -/

/-- The `bestStreak` of the habit with a given id, if present. -/
def bestOf (db : HabitDB) (habitId : Nat) : Option Nat :=
  (db.habits.find? fun h => h.id = habitId).map fun h => h.bestStreak

/-- Fold a sequence of streak-recompute calls over the store. -/
def runRecomputes (db : HabitDB) (calls : List (Nat × Int)) : HabitDB :=
  calls.foldl (fun d c => updateStreak d c.1 c.2) db

/-- A proposed category the confirm pipeline can persist: absent or empty
(defaulted to `other`), or a member of the category enum. -/
def validProposedCategory (c : Option String) : Bool :=
  match c with
  | none => true
  | some s => s = "" || validCategory s

/-- Sample habit. -/
def exGym : Habit :=
  { id := 1, userId := 7, name := "Gym", frequency := "daily", durationMinutes := 45 }

/-- Sample event. -/
def exEvent : CalendarEvent :=
  { id := 1, userId := 7, title := "Lunch", startTime := "2024-06-02T12:00:00",
    endTime := "2024-06-02T12:30:00", date := "2024-06-02", category := "meal",
    isRecurring := false, createdBy := "user" }

/-- A completed log dated one day after "today" (today is day 10). -/
def logFuture : HabitLog := { id := 2, habitId := 1, userId := 7, date := 11, completed := true }

/-- A completed log dated "today". -/
def logToday : HabitLog := { id := 3, habitId := 1, userId := 7, date := 10, completed := true }

/-- A completed log dated the day before "today". -/
def logYesterday : HabitLog := { id := 4, habitId := 1, userId := 7, date := 9, completed := true }

/-- Store with a future-dated log in front of a completed run ending today. -/
def dbC1 : HabitDB := { habits := [exGym], logs := [logFuture, logToday], nextId := 5 }

/-- Store with a two-day completed run ending today and no future log. -/
def dbC1w : HabitDB := { habits := [exGym], logs := [logToday, logYesterday], nextId := 6 }

/-- Store with a future log ahead of a three-day run in the sorted order. -/
def dbC7 : HabitDB := { habits := [exGym], logs := [logFuture, logToday, logYesterday], nextId := 5 }

/-- Store with one existing log for the pair `(habit 1, day 10)`. -/
def dbC4 : HabitDB := { habits := [exGym], logs := [logToday], nextId := 5 }

/-- Store with no habits at all. -/
def dbC9 : HabitDB := { habits := [], logs := [], nextId := 1 }

/-- Empty event store. -/
def dbE0 : EventDB := { events := [], nextId := 1 }

/-- Proposed event with a known category. -/
def evMeditate : ParsedEvent :=
  { title := "Meditate", startTime := "07:00", endTime := "07:30", category := some "habit" }

/-- Proposed event with a known category. -/
def evWork : ParsedEvent :=
  { title := "Standup+work", startTime := "09:00", endTime := "17:00", category := some "work" }

/-- Proposed event whose category is present but outside the enum. -/
def evBad : ParsedEvent :=
  { title := "Run", startTime := "07:00", endTime := "08:00", category := some "exercise" }

/-- Pipeline state with a valid two-event proposal. -/
def stC2 : PlanState := { messages := [], parsedSchedule := some [evMeditate, evWork] }

/-- Pipeline state with the invalid-category proposal. -/
def stBad : PlanState :=
  { messages := [], parsedSchedule := some [evBad], scheduleConfirmed := false }

/-- An assistant reply whose fenced json block is malformed. -/
def replyMalformed : String := "Here is your plan: ```json \x7boops``` enjoy!"

/-- A parse that throws (returns `none`) on every input, as `JSON.parse`
does on a malformed block. -/
def failingParse : String → Option Json := fun _ => none

/-! ## Helper lemmas -/

/-- A map by an id-preserving function commutes with `find?` on the id. -/
theorem find?_map_of_id_eq (g : Habit → Habit) (hid : Nat)
    (hg : ∀ h : Habit, (g h).id = h.id) (hs : List Habit) :
    (hs.map g).find? (fun h => h.id = hid) = (hs.find? fun h => h.id = hid).map g := by
  induction hs with
  | nil => rfl
  | cons a t ih =>
    rw [List.map_cons]
    by_cases ha : a.id = hid
    · rw [List.find?_cons_of_pos _ (by simp [hg a, ha]),
        List.find?_cons_of_pos _ (by simp [ha])]
      rfl
    · rw [List.find?_cons_of_neg _ (by simp [hg a, ha]),
        List.find?_cons_of_neg _ (by simp [ha]), ih]

/-- `patchStreak` never changes the id. -/
theorem patchStreak_id (hid : Nat) (c best : Nat) (h : Habit) :
    (patchStreak hid c best h).id = h.id := by
  unfold patchStreak
  split <;> rfl

/-- `updateStreak` on a missing habit is a no-op. -/
theorem updateStreak_of_not_found (db : HabitDB) (hid : Nat) (today : Int)
    (hfind : db.habits.find? (fun h => h.id = hid) = none) :
    updateStreak db hid today = db := by
  unfold updateStreak
  rw [hfind]

/-- `updateStreak` never touches the logs. -/
theorem updateStreak_logs (db : HabitDB) (hid : Nat) (today : Int) :
    (updateStreak db hid today).logs = db.logs := by
  unfold updateStreak
  cases db.habits.find? fun h => h.id = hid <;> rfl

/-- What `find?` sees after `updateStreak` patched a found habit. -/
theorem updateStreak_find?_eq (db : HabitDB) (hid : Nat) (today : Int) (habit : Habit)
    (hfind : db.habits.find? (fun h => h.id = hid) = some habit) :
    (updateStreak db hid today).habits.find? (fun h => h.id = hid) =
      some { habit with
        currentStreak := computeCurrentStreak (habitLogsOf db hid) today
        bestStreak := max habit.bestStreak (computeCurrentStreak (habitLogsOf db hid) today) } := by
  have hid_eq : habit.id = hid := by simpa using List.find?_some hfind
  unfold updateStreak
  rw [hfind]
  dsimp only
  rw [find?_map_of_id_eq _ hid (patchStreak_id hid _ _) db.habits, hfind]
  unfold patchStreak
  simp only [Option.map_some']
  rw [if_pos hid_eq]

/-! ## Claim theorems -/

/-- C8: deleting a habit cascades — after `deleteHabit` no log references
the habit and the habit record itself is gone; the operation is the
composition that deletes the logs first and the habit second. -/
theorem deleteHabit_cascades (db : HabitDB) (hid : Nat) :
    (deleteHabit db hid).logs.filter (fun l => l.habitId = hid) = [] ∧
    (deleteHabit db hid).habits.find? (fun h => h.id = hid) = none ∧
    deleteHabit db hid = deleteHabitRecord (deleteHabitLogs db hid) hid := by
  refine ⟨?_, ?_, rfl⟩
  · rw [List.filter_eq_nil_iff]
    intro l hl
    have hmem : l ∈ db.logs.filter fun x => ¬ (x.habitId = hid) := hl
    have := (List.mem_filter.mp hmem).2
    simpa using this
  · rw [List.find?_eq_none]
    intro h hmem
    have hmem' : h ∈ db.habits.filter fun x => ¬ (x.id = hid) := hmem
    have := (List.mem_filter.mp hmem').2
    simpa using this

/-- C10: `updateHabit` and `updateEvent` patch only the fields whose
optional argument is present; every omitted (undefined) argument leaves the
stored field unchanged, and the fields outside the argument list —
`currentStreak`, `bestStreak`, `userId`, `createdAt` for habits; `date`,
`userId`, `createdBy`, `createdAt` (and `isRecurring`) for events — can
never change. -/
theorem patch_frame_conditions :
    (∀ (a : UpdateHabitArgs) (h : Habit),
      (applyHabitPatch a h).currentStreak = h.currentStreak ∧
      (applyHabitPatch a h).bestStreak = h.bestStreak ∧
      (applyHabitPatch a h).userId = h.userId ∧
      (applyHabitPatch a h).createdAt = h.createdAt ∧
      (a.name = none → (applyHabitPatch a h).name = h.name) ∧
      (a.description = none → (applyHabitPatch a h).description = h.description) ∧
      (a.frequency = none → (applyHabitPatch a h).frequency = h.frequency) ∧
      (a.customDays = none → (applyHabitPatch a h).customDays = h.customDays) ∧
      (a.preferredTime = none → (applyHabitPatch a h).preferredTime = h.preferredTime) ∧
      (a.durationMinutes = none → (applyHabitPatch a h).durationMinutes = h.durationMinutes) ∧
      (a.color = none → (applyHabitPatch a h).color = h.color) ∧
      (a.isActive = none → (applyHabitPatch a h).isActive = h.isActive)) ∧
    (∀ (a : UpdateEventArgs) (e : CalendarEvent),
      (applyEventPatch a e).date = e.date ∧
      (applyEventPatch a e).userId = e.userId ∧
      (applyEventPatch a e).createdBy = e.createdBy ∧
      (applyEventPatch a e).createdAt = e.createdAt ∧
      (applyEventPatch a e).isRecurring = e.isRecurring ∧
      (a.title = none → (applyEventPatch a e).title = e.title) ∧
      (a.description = none → (applyEventPatch a e).description = e.description) ∧
      (a.startTime = none → (applyEventPatch a e).startTime = e.startTime) ∧
      (a.endTime = none → (applyEventPatch a e).endTime = e.endTime) ∧
      (a.category = none → (applyEventPatch a e).category = e.category) ∧
      (a.completed = none → (applyEventPatch a e).completed = e.completed)) ∧
    (∀ (db : HabitDB) (hid : Nat) (a : UpdateHabitArgs),
      (updateHabit db hid a).habits =
        db.habits.map fun h => if h.id = hid then applyHabitPatch a h else h) ∧
    (∀ (db : EventDB) (eid : Nat) (a : UpdateEventArgs),
      (updateEvent db eid a).events =
        db.events.map fun e => if e.id = eid then applyEventPatch a e else e) := by
  refine ⟨fun a h => ?_, fun a e => ?_, fun _ _ _ => rfl, fun _ _ _ => rfl⟩
  · refine ⟨rfl, rfl, rfl, rfl, ?_, ?_, ?_, ?_, ?_, ?_, ?_, ?_⟩ <;>
      (intro ha; simp [applyHabitPatch, patchOptional, ha])
  · refine ⟨rfl, rfl, rfl, rfl, rfl, ?_, ?_, ?_, ?_, ?_, ?_⟩ <;>
      (intro ha; simp [applyEventPatch, patchOptional, ha])

/-- One recompute can only keep or raise the stored `bestStreak` of any
habit. -/
theorem bestOf_updateStreak_ge (db : HabitDB) (hid : Nat) (today : Int) (q b : Nat)
    (hb : bestOf db q = some b) :
    ∃ b', bestOf (updateStreak db hid today) q = some b' ∧ b ≤ b' := by
  cases hfind : db.habits.find? fun h => h.id = hid with
  | none =>
    rw [updateStreak_of_not_found db hid today hfind]
    exact ⟨b, hb, le_refl b⟩
  | some habit =>
    obtain ⟨hq, hfq, hbq⟩ := Option.map_eq_some'.mp hb
    unfold updateStreak
    rw [hfind]
    dsimp only
    unfold bestOf
    dsimp only
    rw [find?_map_of_id_eq _ q (patchStreak_id hid _ _) db.habits, hfq]
    refine ⟨(patchStreak hid _ _ hq).bestStreak, rfl, ?_⟩
    unfold patchStreak
    by_cases hcase : hq.id = hid
    · rw [if_pos hcase]
      have hq_q : hq.id = q := by simpa using List.find?_some hfq
      have hqh : q = hid := by rw [← hq_q, hcase]
      subst hqh
      rw [hfind] at hfq
      injection hfq with hEq
      subst hEq
      rw [← hbq]
      exact le_max_left _ _
    · rw [if_neg hcase]
      exact le_of_eq hbq.symm

/-- `bestStreak` never decreases along any sequence of recompute calls. -/
theorem bestOf_runRecomputes_ge (calls : List (Nat × Int)) :
    ∀ (db : HabitDB) (q b : Nat), bestOf db q = some b →
      ∃ b', bestOf (runRecomputes db calls) q = some b' ∧ b ≤ b' := by
  induction calls with
  | nil => exact fun db q b hb => ⟨b, hb, le_refl b⟩
  | cons c rest ih =>
    intro db q b hb
    obtain ⟨b1, hb1, hle1⟩ := bestOf_updateStreak_ge db c.1 c.2 q b hb
    obtain ⟨b2, hb2, hle2⟩ := ih (updateStreak db c.1 c.2) q b1 hb1
    refine ⟨b2, ?_, le_trans hle1 hle2⟩
    simpa [runRecomputes] using hb2

/-- A recompute preserves `currentStreak ≤ bestStreak` store-wide. -/
theorem updateStreak_preserves_invariant (db : HabitDB) (hid : Nat) (today : Int)
    (hinv : ∀ hb ∈ db.habits, hb.currentStreak ≤ hb.bestStreak) :
    ∀ hb' ∈ (updateStreak db hid today).habits, hb'.currentStreak ≤ hb'.bestStreak := by
  unfold updateStreak
  cases db.habits.find? fun h => h.id = hid with
  | none => exact hinv
  | some habit =>
    dsimp only
    intro hb' hmem
    obtain ⟨hb, hmemb, hEq⟩ := List.mem_map.mp hmem
    subst hEq
    unfold patchStreak
    split
    · exact le_max_right habit.bestStreak _
    · exact hinv hb hmemb

/-- Logs of an exact pair after patching `completed`/`notes` of one log:
the patch moves through the pair filter because it changes neither
`habitId` nor `date`. -/
theorem pairLogs_map_patch (db : HabitDB) (g : HabitLog → HabitLog)
    (hg1 : ∀ l, (g l).habitId = l.habitId) (hg2 : ∀ l, (g l).date = l.date)
    (h : Nat) (d : Int) :
    pairLogs { db with logs := db.logs.map g } h d = (pairLogs db h d).map g := by
  unfold pairLogs
  dsimp only
  rw [List.filter_map]
  congr 1
  apply List.filter_congr
  intro x _
  simp [Function.comp, hg1, hg2]

/-- `updateStreak` does not change any pair's logs. -/
theorem pairLogs_updateStreak (db : HabitDB) (hid : Nat) (today : Int) (h : Nat) (d : Int) :
    pairLogs (updateStreak db hid today) h d = pairLogs db h d := by
  unfold pairLogs
  rw [updateStreak_logs]

/-- Appending one log appends its pair filtrate. -/
theorem pairLogs_append_one (db : HabitDB) (x : HabitLog) (k : Nat) (h : Nat) (d : Int) :
    pairLogs { db with logs := db.logs ++ [x], nextId := k } h d =
      pairLogs db h d ++ List.filter (fun l => l.habitId = h ∧ l.date = d) [x] := by
  unfold pairLogs
  dsimp only
  exact List.filter_append db.logs [x]

/-- A singleton pair filter keeps its log exactly when the pair matches. -/
theorem pair_filter_singleton_other (x : HabitLog) (h : Nat) (d : Int)
    (hne : ¬ (x.habitId = h ∧ x.date = d)) :
    List.filter (fun l => l.habitId = h ∧ l.date = d) [x] = [] := by
  rw [List.filter_eq_nil_iff]
  intro a ha
  rw [List.mem_singleton] at ha
  subst ha
  simpa using hne

/-- C3: `createHabit` initialises both streaks to 0; every recompute sets
`bestStreak` to `max(old bestStreak, new currentStreak)`, so the invariant
`bestStreak ≥ currentStreak` is preserved by every operation, and
`bestStreak` is monotonically non-decreasing across any sequence of
recompute calls. -/
theorem bestStreak_invariant_and_monotone :
    (∀ (a : CreateHabitArgs) (id now : Nat),
      (newHabit a id now).currentStreak = 0 ∧ (newHabit a id now).bestStreak = 0) ∧
    (∀ (db : HabitDB) (a : CreateHabitArgs) (now : Nat),
      (createHabit db a now).1.habits = db.habits ++ [newHabit a db.nextId now]) ∧
    (∀ (db : HabitDB) (hid : Nat) (today : Int),
      (∀ hb ∈ db.habits, hb.currentStreak ≤ hb.bestStreak) →
      ∀ hb' ∈ (updateStreak db hid today).habits, hb'.currentStreak ≤ hb'.bestStreak) ∧
    (∀ (db : HabitDB) (hid : Nat) (today : Int) (habit : Habit),
      db.habits.find? (fun h => h.id = hid) = some habit →
      (updateStreak db hid today).habits.find? (fun h => h.id = hid) =
        some { habit with
          currentStreak := computeCurrentStreak (habitLogsOf db hid) today
          bestStreak := max habit.bestStreak (computeCurrentStreak (habitLogsOf db hid) today) }) ∧
    (∀ (calls : List (Nat × Int)) (db : HabitDB) (q b : Nat),
      bestOf db q = some b →
      ∃ b', bestOf (runRecomputes db calls) q = some b' ∧ b ≤ b') :=
  ⟨fun _ _ _ => ⟨rfl, rfl⟩, fun _ _ _ => rfl,
    updateStreak_preserves_invariant, updateStreak_find?_eq, bestOf_runRecomputes_ge⟩

/-- Witness for C3 on a one-habit store and a one-call recompute sequence. -/
theorem bestStreak_invariant_and_monotone_witness :
    (∀ hb' ∈ (updateStreak dbC4 1 10).habits, hb'.currentStreak ≤ hb'.bestStreak) ∧
    ((updateStreak dbC4 1 10).habits.find? (fun h => h.id = 1) =
      some { exGym with
        currentStreak := computeCurrentStreak (habitLogsOf dbC4 1) 10
        bestStreak := max exGym.bestStreak (computeCurrentStreak (habitLogsOf dbC4 1) 10) }) ∧
    (∃ b', bestOf (runRecomputes dbC4 [(1, 10)]) 1 = some b' ∧ 0 ≤ b') :=
  ⟨bestStreak_invariant_and_monotone.2.2.1 dbC4 1 10 (by decide),
    bestStreak_invariant_and_monotone.2.2.2.1 dbC4 1 10 exGym rfl,
    bestStreak_invariant_and_monotone.2.2.2.2 [(1, 10)] dbC4 1 0 rfl⟩

/-- C4: `logHabitCompletion` has upsert semantics — starting from any store
with at most one log per `(habit, date)` pair, the call succeeds, the
target pair ends with exactly one log carrying the new `completed`/`notes`
values, and every pair still has at most one log. -/
theorem logHabitCompletion_upsert (db : HabitDB) (hid uid : Nat) (d : Int)
    (c : Bool) (n : Option String) (now : Nat) (today : Int)
    (hinv : ∀ h' d', (pairLogs db h' d').length ≤ 1) :
    ∃ db', logHabitCompletion db hid uid d c n now today = some db' ∧
      (pairLogs db' hid d).length = 1 ∧
      (∀ h' d', (pairLogs db' h' d').length ≤ 1) ∧
      (∀ l ∈ pairLogs db' hid d, l.completed = c ∧ l.notes = n) := by
  have hlen := hinv hid d
  unfold logHabitCompletion uniquePairLog
  cases hp : pairLogs db hid d with
  | nil =>
    -- no existing log: a fresh one is inserted
    dsimp only
    refine ⟨_, rfl, ?_, ?_, ?_⟩
    · rw [pairLogs_updateStreak, pairLogs_append_one, hp]
      simp
    · intro h' d'
      rw [pairLogs_updateStreak, pairLogs_append_one]
      by_cases hc : hid = h' ∧ d = d'
      · obtain ⟨rfl, rfl⟩ := hc
        rw [hp]
        simp
      · rw [pair_filter_singleton_other _ h' d' (by simpa using hc), List.append_nil]
        exact hinv h' d'
    · intro l hl
      rw [pairLogs_updateStreak, pairLogs_append_one, hp] at hl
      simp at hl
      subst hl
      exact ⟨rfl, rfl⟩
  | cons x xs =>
    cases xs with
    | cons y ys =>
      rw [hp] at hlen
      simp at hlen
    | nil =>
      -- exactly one existing log: it is patched in place
      dsimp only
      have hg1 : ∀ l : HabitLog,
          ((fun l => if l.id = x.id then { l with completed := c, notes := n } else l) l).habitId
            = l.habitId := by
        intro l
        dsimp only
        split <;> rfl
      have hg2 : ∀ l : HabitLog,
          ((fun l => if l.id = x.id then { l with completed := c, notes := n } else l) l).date
            = l.date := by
        intro l
        dsimp only
        split <;> rfl
      refine ⟨_, rfl, ?_, ?_, ?_⟩
      · rw [pairLogs_updateStreak, pairLogs_map_patch db _ hg1 hg2, hp]
        rfl
      · intro h' d'
        rw [pairLogs_updateStreak, pairLogs_map_patch db _ hg1 hg2, List.length_map]
        exact hinv h' d'
      · intro l hl
        rw [pairLogs_updateStreak, pairLogs_map_patch db _ hg1 hg2, hp] at hl
        simp at hl
        subst hl
        exact ⟨rfl, rfl⟩

/-- Witness for C4: a second write for the pair `(habit 1, day 10)` on a
store already holding one log for it. -/
theorem logHabitCompletion_upsert_witness :
    ∃ db', logHabitCompletion dbC4 1 7 10 false (some "skipped") 99 10 = some db' ∧
      (pairLogs db' 1 10).length = 1 ∧
      (∀ h' d', (pairLogs db' h' d').length ≤ 1) ∧
      (∀ l ∈ pairLogs db' 1 10, l.completed = false ∧ l.notes = some "skipped") :=
  logHabitCompletion_upsert dbC4 1 7 10 false (some "skipped") 99 10 fun h' d' => by
    have := List.length_filter_le (fun l => decide (l.habitId = h' ∧ l.date = d')) dbC4.logs
    simpa [pairLogs, dbC4] using this

/-- C9: a streak recompute for a habit id that does not exist is a silent
no-op; `logHabitCompletion` on such an id still succeeds, leaves the habits
untouched, and the freshly written log is never rolled back. -/
theorem updateStreak_missing_habit_noop (db : HabitDB) (hid uid : Nat) (d : Int)
    (c : Bool) (n : Option String) (now : Nat) (today : Int)
    (hfind : db.habits.find? (fun h => h.id = hid) = none)
    (hpair : (pairLogs db hid d).length ≤ 1) :
    updateStreak db hid today = db ∧
    ∃ db', logHabitCompletion db hid uid d c n now today = some db' ∧
      db'.habits = db.habits ∧
      (pairLogs db' hid d).length = 1 ∧
      ∀ l ∈ pairLogs db' hid d, l.completed = c ∧ l.notes = n := by
  refine ⟨updateStreak_of_not_found db hid today hfind, ?_⟩
  unfold logHabitCompletion uniquePairLog
  cases hp : pairLogs db hid d with
  | nil =>
    dsimp only
    refine ⟨_, rfl, ?_, ?_, ?_⟩
    · have hkeep : ∀ dbz : HabitDB, dbz.habits = db.habits →
          (updateStreak dbz hid today).habits = db.habits := by
        intro dbz hz
        rw [updateStreak_of_not_found dbz hid today (by rw [hz]; exact hfind)]
        exact hz
      exact hkeep _ rfl
    · rw [pairLogs_updateStreak, pairLogs_append_one, hp]
      simp
    · intro l hl
      rw [pairLogs_updateStreak, pairLogs_append_one, hp] at hl
      simp at hl
      subst hl
      exact ⟨rfl, rfl⟩
  | cons x xs =>
    cases xs with
    | cons y ys =>
      rw [hp] at hpair
      simp at hpair
    | nil =>
      dsimp only
      have hg1 : ∀ l : HabitLog,
          ((fun l => if l.id = x.id then { l with completed := c, notes := n } else l) l).habitId
            = l.habitId := by
        intro l
        dsimp only
        split <;> rfl
      have hg2 : ∀ l : HabitLog,
          ((fun l => if l.id = x.id then { l with completed := c, notes := n } else l) l).date
            = l.date := by
        intro l
        dsimp only
        split <;> rfl
      refine ⟨_, rfl, ?_, ?_, ?_⟩
      · have hkeep : ∀ dbz : HabitDB, dbz.habits = db.habits →
            (updateStreak dbz hid today).habits = db.habits := by
          intro dbz hz
          rw [updateStreak_of_not_found dbz hid today (by rw [hz]; exact hfind)]
          exact hz
        exact hkeep _ rfl
      · rw [pairLogs_updateStreak, pairLogs_map_patch db _ hg1 hg2, hp]
        rfl
      · intro l hl
        rw [pairLogs_updateStreak, pairLogs_map_patch db _ hg1 hg2, hp] at hl
        simp at hl
        subst hl
        exact ⟨rfl, rfl⟩

/-- Witness for C9 on a store with no habits at all. -/
theorem updateStreak_missing_habit_noop_witness :
    updateStreak dbC9 1 10 = dbC9 ∧
    ∃ db', logHabitCompletion dbC9 1 7 10 true none 99 10 = some db' ∧
      db'.habits = dbC9.habits ∧
      (pairLogs db' 1 10).length = 1 ∧
      ∀ l ∈ pairLogs db' 1 10, l.completed = true ∧ l.notes = none :=
  updateStreak_missing_habit_noop dbC9 1 7 10 true none 99 10 rfl (by decide)

/-- Walking from a day strictly before a log's date never sees that log. -/
theorem specStreakAux_cons_of_lt (l : HabitLog) (t : List HabitLog) :
    ∀ (f : Nat) (e : Int), e < l.date → specStreakAux (l :: t) f e = specStreakAux t f e := by
  intro f
  induction f with
  | zero =>
    intro e _
    rfl
  | succ f ih =>
    intro e he
    have h1 : hasCompletedLog (l :: t) e = hasCompletedLog t e := by
      unfold hasCompletedLog
      rw [List.any_cons]
      have hhead : (decide (l.date = e) && l.completed) = false := by
        have hne : l.date ≠ e := by omega
        simp [hne]
      rw [hhead, Bool.false_or]
    simp only [specStreakAux]
    rw [h1]
    by_cases h2 : hasCompletedLog t e = true
    · rw [if_pos h2, if_pos h2, ih (e - 1) (by omega)]
    · rw [if_neg h2, if_neg h2]

/-- Over a descending, duplicate-free log list whose dates do not exceed
the check date, the source's walk computes exactly the spec's run length. -/
theorem streakWalk_eq_specStreakAux :
    ∀ (s : List HabitLog) (d : Int) (f : Nat),
      List.Pairwise (fun a b : HabitLog => b.date ≤ a.date) s →
      (s.map HabitLog.date).Nodup →
      (∀ l ∈ s, l.date ≤ d) →
      s.length ≤ f →
      streakWalk s d = specStreakAux s f d := by
  intro s
  induction s with
  | nil =>
    intro d f _ _ _ _
    cases f with
    | zero => rfl
    | succ f => simp [streakWalk, specStreakAux, hasCompletedLog]
  | cons l t ih =>
    intro d f hsort hnodup hle hf
    cases f with
    | zero => simp at hf
    | succ f =>
      have hpair := List.pairwise_cons.mp hsort
      have hnd := List.nodup_cons.mp hnodup
      have hld_le : l.date ≤ d := hle l (List.mem_cons_self l t)
      by_cases hld : l.date = d
      · by_cases hcomp : l.completed = true
        · -- a completed log for the check day: both sides count it and step back
          have htail_le : ∀ b ∈ t, b.date ≤ d - 1 := by
            intro b hb
            have h1 : b.date ≤ l.date := hpair.1 b hb
            have h2 : b.date ≠ l.date := fun hEq =>
              hnd.1 (hEq ▸ List.mem_map_of_mem HabitLog.date hb)
            omega
          have hhc : hasCompletedLog (l :: t) d = true := by
            unfold hasCompletedLog
            rw [List.any_cons]
            simp [hld, hcomp]
          have hft : t.length ≤ f := by
            simp at hf
            omega
          have e1 := specStreakAux_cons_of_lt l t f (d - 1) (by omega)
          have e2 := ih (d - 1) f hpair.2 hnd.2 htail_le hft
          simp only [streakWalk, specStreakAux]
          rw [if_pos ⟨hld, hcomp⟩, if_pos hhc, e1, ← e2]
        · -- the day's log exists but is not completed: streak is 0 on both sides
          have hcomp' : l.completed = false := by
            cases hcb : l.completed
            · rfl
            · exact absurd hcb hcomp
          have hhc : hasCompletedLog (l :: t) d = false := by
            unfold hasCompletedLog
            rw [List.any_cons]
            have hhead : (decide (l.date = d) && l.completed) = false := by
              simp [hcomp']
            rw [hhead, Bool.false_or, List.any_eq_false]
            intro x hx
            have h2 : x.date ≠ l.date := fun hEq =>
              hnd.1 (hEq ▸ List.mem_map_of_mem HabitLog.date hx)
            simp only [Bool.and_eq_true, decide_eq_true_eq, not_and]
            intro hxd
            exact absurd (hxd.trans hld.symm) h2
          simp [streakWalk, specStreakAux, hhc, hld, hcomp']
      · -- gap: no log for the check day at the head, hence none at all
        have hlt : l.date < d := by omega
        have hhc : hasCompletedLog (l :: t) d = false := by
          unfold hasCompletedLog
          rw [List.any_eq_false]
          intro x hx
          rcases List.mem_cons.mp hx with rfl | hx'
          · simp only [Bool.and_eq_true, decide_eq_true_eq, not_and]
            intro hxd
            exact absurd hxd (by omega)
          · have h1 : x.date ≤ l.date := hpair.1 x hx'
            simp only [Bool.and_eq_true, decide_eq_true_eq, not_and]
            intro hxd
            exact absurd hxd (by omega)
        simp [streakWalk, specStreakAux, hhc, hld]

/-- `hasCompletedLog` only depends on the set of logs. -/
theorem hasCompletedLog_perm {s t : List HabitLog} (h : s.Perm t) (d : Int) :
    hasCompletedLog s d = hasCompletedLog t d := by
  unfold hasCompletedLog
  rw [Bool.eq_iff_iff]
  simp only [List.any_eq_true]
  constructor
  · rintro ⟨x, hx, hpx⟩
    exact ⟨x, h.mem_iff.mp hx, hpx⟩
  · rintro ⟨x, hx, hpx⟩
    exact ⟨x, h.mem_iff.mpr hx, hpx⟩

/-- `specStreakAux` only depends on the set of logs. -/
theorem specStreakAux_perm {s t : List HabitLog} (h : s.Perm t) :
    ∀ (f : Nat) (d : Int), specStreakAux s f d = specStreakAux t f d := by
  intro f
  induction f with
  | zero =>
    intro d
    rfl
  | succ f ih =>
    intro d
    simp only [specStreakAux]
    rw [hasCompletedLog_perm h d]
    by_cases h2 : hasCompletedLog t d = true
    · rw [if_pos h2, if_pos h2, ih (d - 1)]
    · rw [if_neg h2, if_neg h2]

/-- The streak the source computes coincides with the specification's run
length whenever the log dates are duplicate-free and none lies after
today. -/
theorem computeCurrentStreak_eq_specStreak (logs : List HabitLog) (today : Int)
    (hnodup : (logs.map HabitLog.date).Nodup)
    (hle : ∀ l ∈ logs, l.date ≤ today) :
    computeCurrentStreak logs today = specStreak logs today := by
  have hperm : (sortLogsDesc logs).Perm logs :=
    List.mergeSort_perm logs fun a b => decide (b.date ≤ a.date)
  have htrans : ∀ (a b c : HabitLog),
      decide (b.date ≤ a.date) = true → decide (c.date ≤ b.date) = true →
      decide (c.date ≤ a.date) = true := by
    intro a b c h1 h2
    simp at h1 h2 ⊢
    omega
  have htotal : ∀ (a b : HabitLog),
      (decide (b.date ≤ a.date) || decide (a.date ≤ b.date)) = true := by
    intro a b
    simp
    omega
  have hsorted0 := List.sorted_mergeSort htrans htotal logs
  have hsorted : List.Pairwise (fun a b : HabitLog => b.date ≤ a.date) (sortLogsDesc logs) := by
    refine hsorted0.imp ?_
    intro a b hab
    simpa using hab
  have hnodup' : ((sortLogsDesc logs).map HabitLog.date).Nodup :=
    ((hperm.map HabitLog.date).nodup_iff).mpr hnodup
  have hle' : ∀ l ∈ sortLogsDesc logs, l.date ≤ today := fun l hl => hle l (hperm.subset hl)
  have hlen : (sortLogsDesc logs).length ≤ logs.length := le_of_eq hperm.length_eq
  unfold computeCurrentStreak specStreak
  rw [streakWalk_eq_specStreakAux (sortLogsDesc logs) today logs.length hsorted hnodup' hle' hlen]
  exact specStreakAux_perm hperm logs.length today

/-- C1 (amended): for every habit and every log set that respects the
one-log-per-day invariant and contains no log dated after today, the
recompute performed by `updateStreak` (as triggered by
`logHabitCompletion`) sets `currentStreak` to the length of the maximal
unbroken run of `completed = true` logs ending at today, and a habit with
zero logs gets `currentStreak = 0`.  The amendment excludes future-dated
logs, which the code treats as a gap (see the counterexample). -/
theorem updateStreak_sets_spec_streak (db : HabitDB) (hid : Nat) (today : Int) (habit : Habit)
    (hfind : db.habits.find? (fun h => h.id = hid) = some habit)
    (hnodup : ((habitLogsOf db hid).map HabitLog.date).Nodup)
    (hle : ∀ l ∈ habitLogsOf db hid, l.date ≤ today) :
    ∃ habit', (updateStreak db hid today).habits.find? (fun h => h.id = hid) = some habit' ∧
      habit'.currentStreak = specStreak (habitLogsOf db hid) today ∧
      (habitLogsOf db hid = [] → habit'.currentStreak = 0) := by
  refine ⟨_, updateStreak_find?_eq db hid today habit hfind, ?_, ?_⟩
  · exact computeCurrentStreak_eq_specStreak (habitLogsOf db hid) today hnodup hle
  · intro h0
    show computeCurrentStreak (habitLogsOf db hid) today = 0
    rw [h0]
    unfold computeCurrentStreak sortLogsDesc
    rw [List.mergeSort_nil]
    rfl

/-- Witness for C1 on a two-day completed run ending today (today = 10). -/
theorem updateStreak_sets_spec_streak_witness :
    ∃ habit', (updateStreak dbC1w 1 10).habits.find? (fun h => h.id = 1) = some habit' ∧
      habit'.currentStreak = specStreak (habitLogsOf dbC1w 1) 10 ∧
      (habitLogsOf dbC1w 1 = [] → habit'.currentStreak = 0) :=
  updateStreak_sets_spec_streak dbC1w 1 10 exGym rfl (by decide) (by decide)

/-- C1 counterexample: logs completed on days 11 and 10 with today = 10.
The sorted walk hits the future-dated log first and stops, so the code
stores `currentStreak = 0`, while the claim's maximal unbroken completed
run ending at today has length 1. -/
theorem updateStreak_future_log_counterexample :
    ((updateStreak dbC1 1 10).habits.find? fun h => h.id = 1).map Habit.currentStreak
        = some 0 ∧
    specStreak (habitLogsOf dbC1 1) 10 = 1 := by
  constructor
  · rw [updateStreak_find?_eq dbC1 1 10 exGym rfl, Option.map_some']
    show some (computeCurrentStreak (habitLogsOf dbC1 1) 10) = some 0
    have hlogs : habitLogsOf dbC1 1 = [logFuture, logToday] := rfl
    have hsorted : sortLogsDesc (habitLogsOf dbC1 1) = [logFuture, logToday] := by
      rw [hlogs]
      exact List.mergeSort_of_sorted (by decide)
    unfold computeCurrentStreak
    rw [hsorted]
    decide
  · decide

/-- C7: whenever the most recent log in descending order is not dated
today — in particular when it is dated strictly after today — the walk
takes the gap branch on its first iteration, and the recompute stores
`currentStreak = 0` regardless of any completed run deeper in the sorted
list. -/
theorem updateStreak_head_mismatch_zero (db : HabitDB) (hid : Nat) (today : Int)
    (habit : Habit) (l : HabitLog) (rest : List HabitLog)
    (hfind : db.habits.find? (fun h => h.id = hid) = some habit)
    (hsorted : sortLogsDesc (habitLogsOf db hid) = l :: rest)
    (hne : l.date ≠ today) :
    ∃ habit', (updateStreak db hid today).habits.find? (fun h => h.id = hid) = some habit' ∧
      habit'.currentStreak = 0 := by
  refine ⟨_, updateStreak_find?_eq db hid today habit hfind, ?_⟩
  show computeCurrentStreak (habitLogsOf db hid) today = 0
  unfold computeCurrentStreak
  rw [hsorted]
  simp only [streakWalk]
  rw [if_neg (fun hcontra => hne hcontra.1), if_neg (fun hcontra => hne hcontra.1)]

/-- Witness for C7: a future-dated completed log sorted ahead of a
completed run ending today; the stored streak is 0. -/
theorem updateStreak_head_mismatch_zero_witness :
    ∃ habit', (updateStreak dbC7 1 10).habits.find? (fun h => h.id = 1) = some habit' ∧
      habit'.currentStreak = 0 := by
  refine updateStreak_head_mismatch_zero dbC7 1 10 exGym logFuture [logToday, logYesterday]
    rfl ?_ (by decide)
  have hlogs : habitLogsOf dbC7 1 = [logFuture, logToday, logYesterday] := rfl
  rw [hlogs]
  exact List.mergeSort_of_sorted (by decide)

/-- Closed form of a successful batch insertion. -/
theorem insertAll_closed (userId now : Nat) :
    ∀ (args : List EventArg) (db : EventDB),
      (insertAll db userId now args).1.events = db.events ++ mkEvents db.nextId userId now args ∧
      (insertAll db userId now args).1.nextId = db.nextId + args.length := by
  intro args
  induction args with
  | nil =>
    intro db
    exact ⟨by simp [insertAll, mkEvents], by simp [insertAll]⟩
  | cons a rest ih =>
    intro db
    have h := ih { events := db.events ++ [eventOfArg db.nextId userId now a],
                   nextId := db.nextId + 1 }
    constructor
    · simp only [insertAll]
      rw [h.1]
      simp [mkEvents, List.append_assoc]
    · simp only [insertAll]
      rw [h.2]
      simp
      omega

/-- Length of the appended batch documents. -/
theorem mkEvents_length (userId now : Nat) :
    ∀ (args : List EventArg) (startId : Nat),
      (mkEvents startId userId now args).length = args.length := by
  intro args
  induction args with
  | nil =>
    intro s
    rfl
  | cons a rest ih =>
    intro s
    simp [mkEvents, ih (s + 1)]

/-- Every appended batch document comes from one of the arguments. -/
theorem mem_mkEvents (userId now : Nat) :
    ∀ (args : List EventArg) (startId : Nat) (ev : CalendarEvent),
      ev ∈ mkEvents startId userId now args →
      ∃ a ∈ args, ∃ id, ev = eventOfArg id userId now a := by
  intro args
  induction args with
  | nil =>
    intro s ev h
    simp [mkEvents] at h
  | cons a rest ih =>
    intro s ev h
    simp only [mkEvents] at h
    rcases List.mem_cons.mp h with h1 | h2
    · exact ⟨a, List.mem_cons_self a rest, s, h1⟩
    · obtain ⟨a', ha', id, hEq⟩ := ih (s + 1) ev h2
      exact ⟨a', List.mem_cons_of_mem a ha', id, hEq⟩

/-- A batch whose every element passes validation commits the insertion. -/
theorem createManyEvents_of_valid (db : EventDB) (userId : Nat) (args : List EventArg)
    (now : Nat) (hvalid : ∀ a ∈ args, validEventArg a = true) :
    createManyEvents db userId args now = some (insertAll db userId now args) := by
  unfold createManyEvents
  rw [if_pos (List.all_eq_true.mpr hvalid)]

/-- C2 (amended): confirming a proposed schedule whose every category is
absent, empty or a member of the category enum creates exactly N calendar
events, each with `date` equal to the target planning date, `startTime`
and `endTime` formed as `date ++ "T" ++ HH:MM ++ ":00"`, provenance
`createdBy = "ai"`, `isRecurring = false`, and an absent or empty category
defaulted to `other`.  The claim's defaulting of a present-but-unknown
category does not hold — such a batch fails argument validation instead
(see the counterexample), hence the category restriction. -/
theorem handleConfirmSchedule_creates_batch (st : PlanState) (db : EventDB)
    (userId : Nat) (tomorrowDate tomorrowFormatted : String) (now : Nat)
    (ps : List ParsedEvent)
    (hps : st.parsedSchedule = some ps)
    (hcat : ∀ e ∈ ps, validProposedCategory e.category = true) :
    ((handleConfirmSchedule st db (some userId) tomorrowDate tomorrowFormatted now).2.events =
      db.events ++ mkEvents db.nextId userId now (ps.map (toEventArg tomorrowDate))) ∧
    ((handleConfirmSchedule st db (some userId) tomorrowDate tomorrowFormatted now).2.events.length
      = db.events.length + ps.length) ∧
    (∀ ev ∈ mkEvents db.nextId userId now (ps.map (toEventArg tomorrowDate)),
      ev.date = tomorrowDate ∧ ev.createdBy = "ai" ∧ ev.isRecurring = false) ∧
    (∀ e ∈ ps,
      (toEventArg tomorrowDate e).date = tomorrowDate ∧
      (toEventArg tomorrowDate e).startTime = tomorrowDate ++ "T" ++ e.startTime ++ ":00" ∧
      (toEventArg tomorrowDate e).endTime = tomorrowDate ++ "T" ++ e.endTime ++ ":00" ∧
      (toEventArg tomorrowDate e).createdBy = "ai" ∧
      (toEventArg tomorrowDate e).isRecurring = false ∧
      ((e.category = none ∨ e.category = some "") →
        (toEventArg tomorrowDate e).category = "other")) := by
  have hvalid : ∀ a ∈ ps.map (toEventArg tomorrowDate), validEventArg a = true := by
    intro a ha
    obtain ⟨e, he, rfl⟩ := List.mem_map.mp ha
    have hc := hcat e he
    unfold validEventArg validCreatedBy toEventArg
    dsimp only
    rw [Bool.and_eq_true]
    refine ⟨?_, by decide⟩
    unfold validProposedCategory at hc
    cases hcc : e.category with
    | none => decide
    | some s =>
      rw [hcc] at hc
      have hc' : (decide (s = "") || validCategory s) = true := hc
      show validCategory (if s = "" then "other" else s) = true
      by_cases hs : s = ""
      · rw [if_pos hs]
        decide
      · rw [if_neg hs]
        simpa [hs] using hc'
  have hcm := createManyEvents_of_valid db userId (ps.map (toEventArg tomorrowDate)) now hvalid
  have hclosed := insertAll_closed userId now (ps.map (toEventArg tomorrowDate)) db
  refine ⟨?_, ?_, ?_, ?_⟩
  · unfold handleConfirmSchedule
    rw [hps]
    dsimp only
    rw [hcm]
    exact hclosed.1
  · unfold handleConfirmSchedule
    rw [hps]
    dsimp only
    rw [hcm]
    rw [hclosed.1, List.length_append, mkEvents_length, List.length_map]
  · intro ev hev
    obtain ⟨a, ha, id, rfl⟩ := mem_mkEvents userId now _ db.nextId ev hev
    obtain ⟨e, he, rfl⟩ := List.mem_map.mp ha
    exact ⟨rfl, rfl, rfl⟩
  · intro e he
    refine ⟨rfl, rfl, rfl, rfl, rfl, ?_⟩
    rintro (hno | hemp)
    · simp [toEventArg, hno]
    · simp [toEventArg, hemp]

/-- Witness for C2 on a valid two-event proposal for 2024-06-02. -/
theorem handleConfirmSchedule_creates_batch_witness :
    ((handleConfirmSchedule stC2 dbE0 (some 7) "2024-06-02" "June 2" 0).2.events =
      dbE0.events ++
        mkEvents dbE0.nextId 7 0 ([evMeditate, evWork].map (toEventArg "2024-06-02"))) ∧
    ((handleConfirmSchedule stC2 dbE0 (some 7) "2024-06-02" "June 2" 0).2.events.length =
      dbE0.events.length + [evMeditate, evWork].length) ∧
    (∀ ev ∈ mkEvents dbE0.nextId 7 0 ([evMeditate, evWork].map (toEventArg "2024-06-02")),
      ev.date = "2024-06-02" ∧ ev.createdBy = "ai" ∧ ev.isRecurring = false) ∧
    (∀ e ∈ [evMeditate, evWork],
      (toEventArg "2024-06-02" e).date = "2024-06-02" ∧
      (toEventArg "2024-06-02" e).startTime = "2024-06-02" ++ "T" ++ e.startTime ++ ":00" ∧
      (toEventArg "2024-06-02" e).endTime = "2024-06-02" ++ "T" ++ e.endTime ++ ":00" ∧
      (toEventArg "2024-06-02" e).createdBy = "ai" ∧
      (toEventArg "2024-06-02" e).isRecurring = false ∧
      ((e.category = none ∨ e.category = some "") →
        (toEventArg "2024-06-02" e).category = "other")) :=
  handleConfirmSchedule_creates_batch stC2 dbE0 7 "2024-06-02" "June 2" 0
    [evMeditate, evWork] rfl (by decide)

/-- C2 counterexample: the proposed category "exercise" is present but not
in the enum; instead of being defaulted to `other` it fails the mutation's
argument validation, so confirming the one-event proposal creates zero
events rather than one. -/
theorem handleConfirmSchedule_unknown_category_counterexample :
    (handleConfirmSchedule stBad dbE0 (some 7) "2024-06-02" "June 2" 0).2.events = [] ∧
    createManyEvents dbE0 7 ([evBad].map (toEventArg "2024-06-02")) 0 = none := by
  constructor
  · decide
  · decide

/-- C6: when the batch insert during confirmation fails, the event store is
unchanged (the batch is atomic from the caller's perspective), an inline
apology is appended to the transcript, `scheduleConfirmed` stays false, and
`parsedSchedule` is left intact so the confirm can be retried. -/
theorem handleConfirmSchedule_failure_recovery (st : PlanState) (db : EventDB)
    (userId : Nat) (tomorrowDate tomorrowFormatted : String) (now : Nat)
    (ps : List ParsedEvent)
    (hps : st.parsedSchedule = some ps)
    (hconf : st.scheduleConfirmed = false)
    (hfail : createManyEvents db userId (ps.map (toEventArg tomorrowDate)) now = none) :
    (handleConfirmSchedule st db (some userId) tomorrowDate tomorrowFormatted now).2 = db ∧
    (handleConfirmSchedule st db (some userId) tomorrowDate tomorrowFormatted now).1.messages =
      st.messages ++ [⟨"assistant", apologyMessage⟩] ∧
    (handleConfirmSchedule st db (some userId) tomorrowDate tomorrowFormatted
        now).1.scheduleConfirmed = false ∧
    (handleConfirmSchedule st db (some userId) tomorrowDate tomorrowFormatted
        now).1.parsedSchedule = some ps := by
  unfold handleConfirmSchedule
  rw [hps]
  dsimp only
  rw [hfail]
  exact ⟨rfl, rfl, hconf, rfl⟩

/-- Witness for C6 with the invalid-category proposal. -/
theorem handleConfirmSchedule_failure_recovery_witness :
    (handleConfirmSchedule stBad dbE0 (some 7) "2024-06-02" "June 2" 0).2 = dbE0 ∧
    (handleConfirmSchedule stBad dbE0 (some 7) "2024-06-02" "June 2" 0).1.messages =
      stBad.messages ++ [⟨"assistant", apologyMessage⟩] ∧
    (handleConfirmSchedule stBad dbE0 (some 7) "2024-06-02" "June 2"
        0).1.scheduleConfirmed = false ∧
    (handleConfirmSchedule stBad dbE0 (some 7) "2024-06-02" "June 2"
        0).1.parsedSchedule = some [evBad] :=
  handleConfirmSchedule_failure_recovery stBad dbE0 7 "2024-06-02" "June 2" 0
    [evBad] rfl rfl (by decide)

/-- C5: an assistant reply whose fenced json block fails to parse, or
parses without a top-level `events` array, changes nothing: the stored
proposal stays as it was, the transcript still holds the full prose reply,
and the event store is untouched. -/
theorem handleSubmitFinish_parse_failure_noop (parseJson : String → Option Json)
    (st : PlanState) (newMessages : List Message) (reply : String) (db : EventDB)
    (block : String)
    (hblock : extractJsonBlock reply = some block)
    (hfail : parseJson block = none ∨ ∀ v, parseJson block = some v → getEvents v = none) :
    (handleSubmitFinish parseJson st newMessages reply db).1.parsedSchedule =
        st.parsedSchedule ∧
    (handleSubmitFinish parseJson st newMessages reply db).1.messages =
      newMessages ++ [⟨"assistant", reply⟩] ∧
    (handleSubmitFinish parseJson st newMessages reply db).2 = db := by
  have hdet : detectSchedule parseJson reply = none := by
    unfold detectSchedule
    rw [hblock]
    dsimp only
    cases hp : parseJson block with
    | none => rfl
    | some v =>
      dsimp only
      rcases hfail with h | h
      · rw [hp] at h
        exact absurd h (Option.some_ne_none v)
      · rw [h v hp]
  unfold handleSubmitFinish
  rw [hdet]
  exact ⟨rfl, rfl, rfl⟩

/-- Witness for C5: a malformed fenced block and a parse that throws. -/
theorem handleSubmitFinish_parse_failure_noop_witness :
    (handleSubmitFinish failingParse stC2 [] replyMalformed dbE0).1.parsedSchedule =
        stC2.parsedSchedule ∧
    (handleSubmitFinish failingParse stC2 [] replyMalformed dbE0).1.messages =
      [] ++ [⟨"assistant", replyMalformed⟩] ∧
    (handleSubmitFinish failingParse stC2 [] replyMalformed dbE0).2 = dbE0 :=
  handleSubmitFinish_parse_failure_noop failingParse stC2 [] replyMalformed dbE0 "\x7boops"
    (by decide) (Or.inl rfl)

/-- Witness for C10 at all-omitted arguments. -/
theorem patch_frame_conditions_witness :
    (applyHabitPatch {} exGym).name = exGym.name ∧
    (applyHabitPatch {} exGym).currentStreak = exGym.currentStreak ∧
    (applyEventPatch {} exEvent).completed = exEvent.completed ∧
    (applyEventPatch {} exEvent).date = exEvent.date := by
  obtain ⟨h1, h2, -, -⟩ := patch_frame_conditions
  exact ⟨(h1 {} exGym).2.2.2.2.1 rfl, (h1 {} exGym).1,
    (h2 {} exEvent).2.2.2.2.2.2.2.2.2.2 rfl, (h2 {} exEvent).1⟩

end Planora
